import Mathlib

/-!
Shallow embedding of the Nitter polling engine (`src/polling_engine.py`) and
proofs about its specification claims.  Python strings are modelled by `String`,
timestamps (`time.time()`) by `Nat` seconds, `datetime` values by the
`DateTime` structure below, and the Redis tweet stream by the list of entries
appended during a call.  Fallible operations return explicit outcome types.
-/

namespace Nitter

/-! ## String helpers (models of Python `in`, `startswith`, `str.split` uses) -/

/-- Does the second list occur as a leading block of the first? -/
def listStarts : List Char → List Char → Bool
  | _, [] => true
  | [], _ :: _ => false
  | a :: as, b :: bs => a == b && listStarts as bs

/-- Does `pat` occur as a contiguous block anywhere in `s`?  Models Python
`pat in s` on strings. -/
def listHas : List Char → List Char → Bool
  | [], pat => pat.isEmpty
  | s@(_ :: rest), pat => listStarts s pat || listHas rest pat

/-- Python `pat in s` for strings. -/
def strHas (s pat : String) : Bool := listHas s.data pat.data

/-- Case-insensitive version of `listStarts` (ASCII lowering, as used by
`re.IGNORECASE` on the patterns in the source). -/
def lowStarts : List Char → List Char → Bool
  | _, [] => true
  | [], _ :: _ => false
  | a :: as, b :: bs => a.toLower == b.toLower && lowStarts as bs

/-- Python `s.startswith(pat)`. -/
def strStarts (s pat : String) : Bool := listStarts s.data pat.data

/-- Replace every occurrence of `pat` left to right (fuel-indexed worker). -/
def listReplace : Nat → List Char → List Char → List Char → List Char
  | 0, s, _, _ => s
  | _ + 1, [], _, _ => []
  | fuel + 1, s@(c :: rest), pat, repl =>
    if pat ≠ [] && listStarts s pat then
      repl ++ listReplace fuel (s.drop pat.length) pat repl
    else c :: listReplace fuel rest pat repl

/-- Python `s.replace(pat, repl)`: all non-overlapping occurrences,
left to right (nonempty `pat`). -/
def strReplace (s pat repl : String) : String :=
  if pat = "" then s
  else String.mk (listReplace s.data.length s.data pat.data repl.data)

/-- Fuel-indexed worker for `strSplit`. -/
def splitAux : Nat → List Char → List Char → List Char → List String
  | 0, acc, s, _ => [String.mk (acc ++ s)]
  | _ + 1, acc, [], _ => [String.mk acc]
  | fuel + 1, acc, s@(c :: rest), pat =>
    if listStarts s pat then
      String.mk acc :: splitAux fuel [] (s.drop pat.length) pat
    else splitAux fuel (acc ++ [c]) rest pat

/-- Python `s.split(pat)` for a nonempty separator. -/
def strSplit (s pat : String) : List String :=
  if pat = "" then [s]
  else splitAux (s.data.length + 1) [] s.data pat.data

/-- Python `s.strip()`: drop leading and trailing whitespace. -/
def strTrim (s : String) : String :=
  String.mk
    (((s.data.dropWhile Char.isWhitespace).reverse.dropWhile Char.isWhitespace).reverse)

/-! ## Dates: model of Python `datetime` restricted to what the engine uses -/

/-- A parsed calendar timestamp.  `tzOffsetMin` is `some o` for an aware
datetime (offset in minutes), `none` for a naive one. -/
structure DateTime where
  year : Nat
  month : Nat
  day : Nat
  hour : Nat
  minute : Nat
  second : Nat
  tzOffsetMin : Option Int := none
deriving Repr, DecidableEq

/-- Python `a.date() == b.date()`: compare the calendar-day components. -/
def dateEq (a b : DateTime) : Bool :=
  a.year == b.year && a.month == b.month && a.day == b.day

/-! ### `datetime.strptime` for the five formats tried by `parse_date`

`%d`/`%H`/`%M`/`%S` match one or two digits, `%Y` exactly four, `%a`/`%b`
match the English three-letter names case-insensitively, a space in the
format matches one or more whitespace characters, and `%z` matches `Z` or a
sign followed by `HHMM` / `HH:MM`; the whole input must be consumed. -/

def digitVal (c : Char) : Option Nat :=
  if c.isDigit then some (c.toNat - 48) else none

/-- Greedily take one or two digits. -/
def take2Digits : List Char → Option (Nat × List Char)
  | c1 :: c2 :: rest =>
    match digitVal c1, digitVal c2 with
    | some d1, some d2 => some (d1 * 10 + d2, rest)
    | some d1, none => some (d1, c2 :: rest)
    | none, _ => none
  | [c1] => (digitVal c1).map (fun d => (d, []))
  | [] => none

/-- Exactly two digits. -/
def take2 : List Char → Option (Nat × List Char)
  | c1 :: c2 :: rest =>
    match digitVal c1, digitVal c2 with
    | some d1, some d2 => some (d1 * 10 + d2, rest)
    | _, _ => none
  | _ => none

/-- Exactly four digits (`%Y`). -/
def take4Digits : List Char → Option (Nat × List Char)
  | c1 :: c2 :: c3 :: c4 :: rest =>
    match digitVal c1, digitVal c2, digitVal c3, digitVal c4 with
    | some d1, some d2, some d3, some d4 =>
      some (((d1 * 10 + d2) * 10 + d3) * 10 + d4, rest)
    | _, _, _, _ => none
  | _ => none

/-- One or more whitespace characters (a space in a `strptime` format). -/
def ws : List Char → Option (List Char)
  | c :: rest => if c.isWhitespace then some (rest.dropWhile Char.isWhitespace) else none
  | [] => none

/-- An exact literal. -/
def lit (pat : String) (s : List Char) : Option (List Char) :=
  if listStarts s pat.data then some (s.drop pat.length) else none

def monthNames : List String :=
  ["jan", "feb", "mar", "apr", "may", "jun", "jul", "aug", "sep", "oct", "nov", "dec"]

/-- `%b`: a three-letter month name, case-insensitively. -/
def monthAbbr : List Char → Option (Nat × List Char)
  | c1 :: c2 :: c3 :: rest =>
    let w := String.mk [c1.toLower, c2.toLower, c3.toLower]
    match monthNames.findIdx? (fun n => n == w) with
    | some i => some (i + 1, rest)
    | none => none
  | _ => none

def weekdayNames : List String := ["mon", "tue", "wed", "thu", "fri", "sat", "sun"]

/-- `%a`: a three-letter weekday name, case-insensitively (value unused). -/
def weekdayAbbr : List Char → Option (List Char)
  | c1 :: c2 :: c3 :: rest =>
    let w := String.mk [c1.toLower, c2.toLower, c3.toLower]
    if weekdayNames.contains w then some rest else none
  | _ => none

/-- `%z`: `Z`, or a sign followed by `HHMM` or `HH:MM`; offset in minutes. -/
def tzOffset : List Char → Option (Int × List Char)
  | [] => none
  | c :: rest =>
    if c == 'Z' then some (0, rest)
    else if c == '+' || c == '-' then
      match take2 rest with
      | none => none
      | some (h, r1) =>
        let r1 := if r1.headD ' ' == ':' then r1.drop 1 else r1
        match take2 r1 with
        | none => none
        | some (m, r2) =>
          let mag : Int := Int.ofNat (h * 60 + m)
          some (if c == '-' then -mag else mag, r2)
    else none

/-- `"%a, %d %b %Y %H:%M:%S %z"`. -/
def parseRfc822Tz (s : String) : Option DateTime := do
  let r ← weekdayAbbr s.data
  let r ← lit "," r
  let r ← ws r
  let (d, r) ← take2Digits r
  let r ← ws r
  let (mo, r) ← monthAbbr r
  let r ← ws r
  let (y, r) ← take4Digits r
  let r ← ws r
  let (h, r) ← take2Digits r
  let r ← lit ":" r
  let (mi, r) ← take2Digits r
  let r ← lit ":" r
  let (se, r) ← take2Digits r
  let r ← ws r
  let (tz, r) ← tzOffset r
  if r.isEmpty then some ⟨y, mo, d, h, mi, se, some tz⟩ else none

/-- `"%a, %d %b %Y %H:%M:%S"`. -/
def parseRfc822 (s : String) : Option DateTime := do
  let r ← weekdayAbbr s.data
  let r ← lit "," r
  let r ← ws r
  let (d, r) ← take2Digits r
  let r ← ws r
  let (mo, r) ← monthAbbr r
  let r ← ws r
  let (y, r) ← take4Digits r
  let r ← ws r
  let (h, r) ← take2Digits r
  let r ← lit ":" r
  let (mi, r) ← take2Digits r
  let r ← lit ":" r
  let (se, r) ← take2Digits r
  if r.isEmpty then some ⟨y, mo, d, h, mi, se, none⟩ else none

/-- `"%a, %d %b %Y %H:%M:%S GMT"`. -/
def parseRfc822Gmt (s : String) : Option DateTime := do
  let r ← weekdayAbbr s.data
  let r ← lit "," r
  let r ← ws r
  let (d, r) ← take2Digits r
  let r ← ws r
  let (mo, r) ← monthAbbr r
  let r ← ws r
  let (y, r) ← take4Digits r
  let r ← ws r
  let (h, r) ← take2Digits r
  let r ← lit ":" r
  let (mi, r) ← take2Digits r
  let r ← lit ":" r
  let (se, r) ← take2Digits r
  let r ← ws r
  let r ← lit "GMT" r
  if r.isEmpty then some ⟨y, mo, d, h, mi, se, none⟩ else none

/-- `"%Y-%m-%dT%H:%M:%S%z"`. -/
def parseIsoTz (s : String) : Option DateTime := do
  let (y, r) ← take4Digits s.data
  let r ← lit "-" r
  let (mo, r) ← take2Digits r
  let r ← lit "-" r
  let (d, r) ← take2Digits r
  let r ← lit "T" r
  let (h, r) ← take2Digits r
  let r ← lit ":" r
  let (mi, r) ← take2Digits r
  let r ← lit ":" r
  let (se, r) ← take2Digits r
  let (tz, r) ← tzOffset r
  if r.isEmpty then some ⟨y, mo, d, h, mi, se, some tz⟩ else none

/-- `"%Y-%m-%dT%H:%M:%S"`. -/
def parseIso (s : String) : Option DateTime := do
  let (y, r) ← take4Digits s.data
  let r ← lit "-" r
  let (mo, r) ← take2Digits r
  let r ← lit "-" r
  let (d, r) ← take2Digits r
  let r ← lit "T" r
  let (h, r) ← take2Digits r
  let r ← lit ":" r
  let (mi, r) ← take2Digits r
  let r ← lit ":" r
  let (se, r) ← take2Digits r
  if r.isEmpty then some ⟨y, mo, d, h, mi, se, none⟩ else none

/-- The five formats tried in order by `parse_date`. -/
def tryFormats (s : String) : Option DateTime :=
  (parseRfc822Tz s).orElse fun _ =>
  (parseRfc822 s).orElse fun _ =>
  (parseRfc822Gmt s).orElse fun _ =>
  (parseIsoTz s).orElse fun _ =>
  parseIso s

/-- The `" GMT"` to `" +0000"` rewriting done by `parse_date` before trying
the formats. -/
def gmtFix (s : String) : String :=
  if strHas s " GMT" then strReplace s " GMT" " +0000" else s

/-- `EnhancedPollingEngine.parse_date` (`polling_engine.py` 1018-1042):
empty input and input matching none of the formats both fall back to the
current time; the function never raises. -/
def parse_date (dateStr : String) (now : DateTime) : DateTime :=
  if dateStr = "" then now
  else (tryFormats (gmtFix dateStr)).getD now

/-! ## URL handling: `urllib.parse.urlparse` (scheme / netloc / path only) and
the image-URL normalization of `process_rss_content` -/

/-- A character allowed in a URL scheme. -/
def schemeChar (c : Char) : Bool :=
  c.isAlpha || c.isDigit || c == '+' || c == '-' || c == '.'

structure UrlParts where
  scheme : String
  netloc : String
  path : String
deriving Repr, DecidableEq

/-- `urllib.parse.urlparse`, restricted to the `scheme`, `netloc` and `path`
components used by `normalize_image_url`: the scheme (lower-cased) is a valid
scheme token before the first `:`, the netloc follows `//` up to the first
`/`, `?` or `#`, and the path runs up to the first `?` or `#`. -/
def urlparse (url : String) : UrlParts :=
  let cs := url.data
  let p :=
    match cs.findIdx? (fun c => c == ':') with
    | some i =>
      let before := cs.take i
      if 0 < i && before.all schemeChar && (before.headD ' ').isAlpha then
        (String.mk (before.map Char.toLower), cs.drop (i + 1))
      else (("" : String), cs)
    | none => (("" : String), cs)
  let rest := p.2
  let q :=
    if listStarts rest ['/', '/'] then
      let r := rest.drop 2
      let n := r.takeWhile (fun c => c ≠ '/' && c ≠ '?' && c ≠ '#')
      (String.mk n, r.drop n.length)
    else (("" : String), rest)
  { scheme := p.1, netloc := q.1
    path := String.mk (q.2.takeWhile (fun c => c ≠ '?' && c ≠ '#')) }

/-- The localhost port rewriting applied to image URLs (lines 851-853 and
869-871 of `polling_engine.py`). -/
def fixPort (u : String) : String :=
  if strStarts u "http://localhost/" && !(strHas u ":8080") then
    strReplace u "http://localhost/" "http://localhost:8080/"
  else u

/-- `normalize_image_url` (nested in `process_rss_content`): the URL with its
query string dropped, used as the deduplication key. -/
def normalize_image_url (url : String) : String :=
  if url = "" then ""
  else
    let url := fixPort url
    let p := urlparse url
    p.scheme ++ "://" ++ p.netloc ++ p.path

/-- The validity filter of the deduplication loop: skip empty URLs, `data:`
URIs and URLs of at most 10 characters. -/
def validImage (u : String) : Bool :=
  !(u == "") && !(strStarts u "data:") && decide (10 < u.data.length)

/-- Membership in the `seen_normalized` set. -/
def memStr : List String → String → Bool
  | [], _ => false
  | x :: xs, s => if x = s then true else memStr xs s

/-- The deduplication loop of `process_rss_content` (lines 861-878): keep the
first URL for each normalized form, after the port fix. -/
def dedupImagesAux : List String → List String → List String
  | _, [] => []
  | seen, u :: rest =>
    if !(validImage u) then dedupImagesAux seen rest
    else
      let u := fixPort u
      let n := normalize_image_url u
      if memStr seen n then dedupImagesAux seen rest
      else u :: dedupImagesAux (n :: seen) rest

def dedupImages (images : List String) : List String := dedupImagesAux [] images

/-! ## Inline image extraction

Models of the two `re.findall` calls over the item description
(`polling_engine.py` 831-843).  The `img`-tag pattern is
`<img[^>]+src=["...]([^"...]+)["...][^>]*>` with `IGNORECASE`; attribute
values are assumed not to contain `>`, under which the regex picks, inside
each `<img ...>` tag, the rightmost `src=` whose quoted value is nonempty. -/

def isQuote (c : Char) : Bool := c == '"' || c.toNat == 39

/-- Try the quoted `src=` pattern at offset `i + 1` of the tag body (the
`[^>]+` before `src=` must be nonempty). -/
def srcAt (tag : List Char) (i : Nat) : Option String :=
  let r := tag.drop (i + 1)
  if lowStarts r ['s', 'r', 'c', '='] then
    match r.drop 4 with
    | q :: rest =>
      if isQuote q then
        let val := rest.takeWhile (fun c => !(isQuote c))
        match rest.drop val.length with
        | q2 :: _ => if isQuote q2 && !val.isEmpty then some (String.mk val) else none
        | [] => none
      else none
    | [] => none
  else none

/-- The rightmost matching `src=` inside a tag body (greedy `[^>]+`). -/
def lastSrcIn (tag : List Char) : Option String :=
  ((List.range tag.length).filterMap (srcAt tag)).getLast?

def findImgsAux : Nat → List Char → List String
  | 0, _ => []
  | _ + 1, [] => []
  | fuel + 1, s@(_ :: tail) =>
    if lowStarts s ['<', 'i', 'm', 'g'] then
      let afterTag := s.drop 4
      let tag := afterTag.takeWhile (fun c => c ≠ '>')
      if tag.length < afterTag.length then
        match lastSrcIn tag with
        | some v => v :: findImgsAux fuel (afterTag.drop (tag.length + 1))
        | none => findImgsAux fuel tail
      else findImgsAux fuel tail
    else findImgsAux fuel tail

/-- `re.findall` of the `img`-tag `src` pattern over the description HTML. -/
def findImgs (s : String) : List String := findImgsAux (s.data.length + 1) s.data

/-- A character matched by `[^\s<>"]` in the fallback URL pattern. -/
def urlAllowed (c : Char) : Bool :=
  !(c.isWhitespace || c == '<' || c == '>' || c == '"')

/-- Image extensions in the alternation order of the fallback pattern. -/
def imageExts : List (List Char) :=
  [['j', 'p', 'g'], ['j', 'p', 'e', 'g'], ['p', 'n', 'g'], ['g', 'i', 'f'],
   ['w', 'e', 'b', 'p']]

/-- If an extension follows at this position, its length. -/
def extLenAt (span : List Char) (i : Nat) : Option Nat :=
  (imageExts.find? (fun e => lowStarts (span.drop i) e)).map List.length

/-- Dot positions (at offset ≥ 1) of `span` followed by an image extension. -/
def dotCands (span : List Char) : List (Nat × Nat) :=
  (List.range span.length).filterMap (fun i =>
    if 0 < i && span.getD i ' ' == '.' then
      (extLenAt span (i + 1)).map (fun l => (i, l))
    else none)

/-- Match the fallback pattern
`https?://[^\s<>"]+\.(jpg|jpeg|png|gif|webp)(\?[^\s<>"]*)?` at the start of
`s`; returns the match and the remaining input.  Greedy `[^\s<>"]+` picks the
rightmost eligible dot; a `?` right after the extension absorbs the rest of
the allowed span. -/
def matchImageUrl (s : List Char) : Option (String × List Char) :=
  let schemeLen :=
    if lowStarts s "https://".data then some 8
    else if lowStarts s "http://".data then some 7
    else none
  match schemeLen with
  | none => none
  | some sl =>
    let body := s.drop sl
    let span := body.takeWhile urlAllowed
    match (dotCands span).getLast? with
    | none => none
    | some (i, l) =>
      let stop :=
        if span.getD (i + 1 + l) ' ' == '?' then span.length else i + 1 + l
      some (String.mk (s.take (sl + stop)), s.drop (sl + stop))

def findImageUrlsAux : Nat → List Char → List String
  | 0, _ => []
  | _ + 1, [] => []
  | fuel + 1, s@(_ :: tail) =>
    match matchImageUrl s with
    | some (m, rest) => m :: findImageUrlsAux fuel rest
    | none => findImageUrlsAux fuel tail

/-- `re.findall` of the fallback image-URL pattern (only consulted when the
`img`-tag pattern found nothing). -/
def findImageUrls (s : String) : List String :=
  findImageUrlsAux (s.data.length + 1) s.data

/-! ## Per-account state (`StateManager`, `state.json` `users` map) -/

/-- One account's entry in the state file.  A field that the Python dict may
lack is an `Option` (or a counter defaulting to `0`, matching
`user_state.get(key, 0)`). -/
structure UserState where
  last_tweet_id : Option String := none
  initialized : Bool := false
  content_hash : Option String := none
  username : Option String := none
  display_name : Option String := none
  last_check_time : Option Nat := none
  last_success_time : Option Nat := none
  last_updated : Option Nat := none
  rate_limit_count : Nat := 0
  http_error_count : Nat := 0
  network_error_count : Nat := 0
  parse_error_count : Nat := 0
  error_count : Nat := 0
deriving Repr, DecidableEq

/-- The `users` map, in insertion order (Python dict). -/
def StateMap := List (String × UserState)
deriving DecidableEq

/-- `StateManager.get_user_state`: an empty record for an unknown account. -/
def getUserState : StateMap → String → UserState
  | [], _ => {}
  | (k, v) :: rest, uid => if k = uid then v else getUserState rest uid

def setUserState : StateMap → String → UserState → StateMap
  | [], uid, u => [(uid, u)]
  | (k, v) :: rest, uid, u =>
    if k = uid then (uid, u) :: rest else (k, v) :: setUserState rest uid u

/-- `StateManager.update_user_state`: merge-upsert of the given fields plus a
`last_updated` stamp. -/
def updUser (st : StateMap) (uid : String) (f : UserState → UserState)
    (nowEpoch : Nat) : StateMap :=
  let u := f (getUserState st uid)
  setUserState st uid { u with last_updated := some nowEpoch }

/-! ## The parsed RSS document

`process_rss_content` receives the raw payload and runs `ET.fromstring` on
it; the embedding starts from the result of that call.  An `Option String`
field is `none` when the element is absent, `some ""` when it is present with
empty text — the source only ever tests the two through the same
`x is None or not x.text` truthiness check. -/

structure RssItem where
  link : Option String := none
  title : Option String := none
  description : Option String := none
  pubDate : Option String := none
  creator : Option String := none
  /-- `(type, url)` attribute pairs of the item's `enclosure` elements
  (attribute reads default to `""`). -/
  enclosures : List (String × String) := []
deriving Repr, DecidableEq

structure RssDoc where
  channelTitle : Option String := none
  items : List RssItem := []
deriving Repr, DecidableEq

/-- The outcome of `ET.fromstring` on the fetched payload. -/
inductive RssContent where
  | malformed
  | wellFormed (doc : RssDoc)
deriving Repr, DecidableEq

/-- Python truthiness of `x is not None and x.text`. -/
def hasText (o : Option String) : Bool :=
  match o with
  | some t => !(t == "")
  | none => false

/-- The display-name extraction of `process_rss_content` (lines 769-811):
channel title patterns first, then the first item's `dc:creator`, then the
`RT by user:` title pattern. -/
def extractUsername (userId : String) (doc : RssDoc) : String :=
  let username := userId
  let username :=
    match doc.channelTitle with
    | some t =>
      if t ≠ "" then
        if strHas t "/ Twitter" then strTrim (strReplace t "/ Twitter" "")
        else if strHas t "/ Nitter" then strTrim (strReplace t "/ Nitter" "")
        else if strHas t " / @" then strTrim ((strSplit t " / @").headD "")
        else if strHas t " /" then strTrim ((strSplit t " /").headD "")
        else strTrim t
      else username
    | none => username
  if username == userId then
    match doc.items with
    | [] => username
    | item :: _ =>
      let username :=
        match item.creator with
        | some c => if c ≠ "" then strTrim c else username
        | none => username
      if username == userId then
        match item.title with
        | some t =>
          if t ≠ "" && strHas t "RT by " && strHas t ":" then
            strTrim (((strSplit ((strSplit t "RT by ").getD 1 "") ":").headD ""))
          else username
        | none => username
      else username
  else username

/-- `tweet_id = link.text.split("/")[-1]` (line 906): the trailing path
segment of the permalink, fragment included. -/
def extractTweetId (link : String) : String := (strSplit link "/").getLastD ""

/-- Modelled from the spec: the post id as §4.5 words it — the permalink's
trailing path segment with any fragment suffix stripped before comparison.
Used only to compare the spec's wording against `extractTweetId`. -/
def specPostId (link : String) : String :=
  (strSplit ((strSplit link "/").getLastD "") "#").headD ""

/-- The entry appended to the Redis tweet stream (`tweet_data`, lines
950-960); `images` keeps the list serialized by `json.dumps`. -/
structure TweetData where
  id : String
  user_id : String
  username : String
  content : String
  html : String
  published_at : String
  url : String
  timestamp : DateTime
  images : List String
deriving Repr, DecidableEq

/-- Result of `process_rss_content`: either a normal return carrying the
boolean result, or an exception escaping the call.  Both carry the state map
after the call and the stream entries appended during it. -/
inductive ProcOut where
  | ret (value : Bool) (st : StateMap) (emitted : List TweetData)
  | raised (st : StateMap) (emitted : List TweetData)
deriving DecidableEq

def ProcOut.state : ProcOut → StateMap
  | .ret _ st _ => st
  | .raised st _ => st

def ProcOut.emitted : ProcOut → List TweetData
  | .ret _ _ e => e
  | .raised _ e => e

def ProcOut.value : ProcOut → Bool
  | .ret b _ _ => b
  | .raised _ _ => false

/-- The images list built for the first item (lines 820-878). -/
def itemImages (item : RssItem) : List String :=
  let encImgs := item.enclosures.filterMap (fun e =>
    if strStarts e.1 "image/" && !(e.2 == "") then some e.2 else none)
  let imgMatches :=
    match item.description with
    | some d => if d ≠ "" then findImgs d else []
    | none => []
  let urlMatches :=
    match item.description with
    | some d => if d ≠ "" && imgMatches.isEmpty then findImageUrls d else []
    | none => []
  encImgs ++ imgMatches ++ urlMatches

/-- `EnhancedPollingEngine.process_rss_content` (lines 757-1016).

`publishOk` is whether `redis_client.xadd` succeeds.  On a malformed payload
(`ET.ParseError`) the handler at line 997 reads the local `user_state`, which
is only bound at line 907, after the parse; the resulting `UnboundLocalError`
aborts the handler before `update_user_state` runs and escapes the call, so
that branch leaves the state unchanged and is modelled as `.raised`. -/
def processRssContent (uid : String) (content : RssContent) (st : StateMap)
    (publishOk : Bool) (now : DateTime) (nowEpoch : Nat) : ProcOut :=
  match content with
  | .malformed => .raised st []
  | .wellFormed doc =>
    match doc.items with
    | [] => .ret false st []
    | item :: _ =>
      let username := extractUsername uid doc
      let unique_images := dedupImages (itemImages item)
      if !(hasText item.link) then .ret false st []
      else if !(hasText item.title) then .ret false st []
      else if !(hasText item.description) then .ret false st []
      else if !(hasText item.pubDate) then .ret false st []
      else
        let linkText := item.link.getD ""
        let titleText := item.title.getD ""
        let descText := item.description.getD ""
        let pubText := item.pubDate.getD ""
        let tweet_id := extractTweetId linkText
        let ust := getUserState st uid
        if ust.last_tweet_id = some tweet_id then
          .ret false
            (updUser st uid (fun u =>
              { u with last_check_time := some nowEpoch
                       last_success_time := some nowEpoch
                       username := some username }) nowEpoch) []
        else
          let pub_time := parse_date pubText now
          if !ust.initialized && !(dateEq pub_time now) then
            .ret false
              (updUser st uid (fun u =>
                { u with last_tweet_id := some tweet_id
                         initialized := true
                         last_check_time := some nowEpoch
                         username := some username }) nowEpoch) []
          else
            let tweet : TweetData :=
              { id := tweet_id, user_id := uid, username := username
                content := titleText, html := descText, published_at := pubText
                url := linkText, timestamp := pub_time, images := unique_images }
            if publishOk then
              .ret true
                (updUser st uid (fun u =>
                  { u with last_tweet_id := some tweet_id
                           last_success_time := some nowEpoch
                           last_check_time := some nowEpoch
                           initialized := true
                           username := some username }) nowEpoch) [tweet]
            else
              .ret false
                (updUser st uid (fun u =>
                  { u with last_tweet_id := some tweet_id
                           last_check_time := some nowEpoch
                           username := some username }) nowEpoch) []

/-! ## `fetch_user_rss` (lines 618-737) -/

/-- The classified HTTP response of the conditional fetch.  For a 200
response, `body` is the payload text and `parsed` the outcome of
`ET.fromstring body` in `process_rss_content`. -/
inductive HttpResp where
  | ok (body : String) (parsed : RssContent)
  | tooMany
  | otherStatus (code : Nat)
  | netError
deriving DecidableEq

/-- Result of `fetch_user_rss`: a normal boolean return, or the re-raised
429 `ClientResponseError` propagating to the batch gather. -/
inductive FetchOut where
  | ret (value : Bool) (st : StateMap) (emitted : List TweetData)
  | raised429 (st : StateMap) (emitted : List TweetData)
deriving DecidableEq

def FetchOut.state : FetchOut → StateMap
  | .ret _ st _ => st
  | .raised429 st _ => st

def FetchOut.emitted : FetchOut → List TweetData
  | .ret _ _ e => e
  | .raised429 _ e => e

/-- `EnhancedPollingEngine.fetch_user_rss`.  `md5` abstracts the hex digest
of `hashlib.md5` (opaque to every claim); `user_state` is the snapshot taken
at line 623, which the error handlers use for their counter reads.  An
exception escaping `process_rss_content` is caught by the generic handler at
line 719 and counted as a network error. -/
def fetchUserRss (md5 : String → String) (uid : String) (resp : HttpResp)
    (st : StateMap) (publishOk : Bool) (now : DateTime) (nowEpoch : Nat) :
    FetchOut :=
  let user_state := getUserState st uid
  match resp with
  | .ok body parsed =>
    let h := md5 body
    if user_state.content_hash = some h then
      .ret false
        (updUser st uid (fun u =>
          { u with last_check_time := some nowEpoch
                   last_success_time := some nowEpoch }) nowEpoch) []
    else
      let st1 := updUser st uid (fun u =>
        { u with content_hash := some h
                 last_check_time := some nowEpoch }) nowEpoch
      match processRssContent uid parsed st1 publishOk now nowEpoch with
      | .ret b st2 em => .ret b st2 em
      | .raised st2 em =>
        .ret false
          (updUser st2 uid (fun u =>
            { u with last_check_time := some nowEpoch
                     network_error_count := user_state.network_error_count + 1 })
            nowEpoch) em
  | .tooMany =>
    .raised429
      (updUser st uid (fun u =>
        { u with last_check_time := some nowEpoch
                 rate_limit_count := user_state.rate_limit_count + 1 }) nowEpoch)
      []
  | .otherStatus _ =>
    .ret false
      (updUser st uid (fun u =>
        { u with last_check_time := some nowEpoch
                 http_error_count := user_state.http_error_count + 1 }) nowEpoch)
      []
  | .netError =>
    .ret false
      (updUser st uid (fun u =>
        { u with last_check_time := some nowEpoch
                 network_error_count := user_state.network_error_count + 1 })
        nowEpoch)
      []

/-! ## Backend (Nitter instance) assignment -/

/-- The `NitterInstance` dataclass (instances have distinct URLs; the Python
object identity of the shared mutable instance is modelled by keying on the
URL). -/
structure NitterInstance where
  url : String
  assigned_users : Nat := 0
  active_connections : Nat := 0
  max_connections : Nat := 50
  recent_429_count : Nat := 0
  last_reset_time : Nat := 0
  total_requests : Nat := 0
deriving Repr, DecidableEq

/-- The engine fields used by `get_instance_for_user`: the instance list and
the `user_instance_mapping` dict (user id to instance URL). -/
structure AssignState where
  instances : List NitterInstance
  mapping : List (String × String)
deriving Repr, DecidableEq

def lookupStr : List (String × String) → String → Option String
  | [], _ => none
  | (k, v) :: rest, key => if k = key then some v else lookupStr rest key

/-- Python `min(instances, key=lambda x: x.assigned_users)`: the first
instance with minimal assigned-user count. -/
def minByAssigned : List NitterInstance → Option NitterInstance
  | [] => none
  | i :: rest =>
    some (rest.foldl (fun best x =>
      if x.assigned_users < best.assigned_users then x else best) i)

def findInstance (l : List NitterInstance) (url : String) : Option NitterInstance :=
  l.find? (fun i => i.url == url)

/-- `EnhancedPollingEngine.get_instance_for_user` (lines 373-389): return the
sticky assignment if one exists; otherwise assign the least-loaded instance
and bump its count. -/
def get_instance_for_user (st : AssignState) (uid : String) :
    Option NitterInstance × AssignState :=
  match lookupStr st.mapping uid with
  | some url => (findInstance st.instances url, st)
  | none =>
    match minByAssigned st.instances with
    | none => (none, st)
    | some sel =>
      let sel := { sel with assigned_users := sel.assigned_users + 1 }
      ( some sel
      , { instances := st.instances.map (fun i =>
            if i.url == sel.url then sel else i)
          mapping := st.mapping ++ [(uid, sel.url)] } )

/-- `EnhancedPollingEngine.update_instance_stats` (lines 391-403): bump the
request counter, count a 429, and reset the 429 count hourly.  The `success`
and `duration` arguments are unused by the source. -/
def update_instance_stats (inst : NitterInstance) (_success : Bool)
    (_duration : Nat) (is429 : Bool) (nowT : Nat) : NitterInstance :=
  let inst := { inst with total_requests := inst.total_requests + 1 }
  let inst :=
    if is429 then { inst with recent_429_count := inst.recent_429_count + 1 }
    else inst
  if 3600 < nowT - inst.last_reset_time then
    { inst with recent_429_count := 0, last_reset_time := nowT }
  else inst

/-! ## Dynamic concurrency (`adjust_concurrency`, lines 1113-1135) -/

structure ConcState where
  current_concurrent : Nat
  recent_errors : List ℚ
  min_concurrent : Nat := 1
  max_concurrent : Nat := 5
deriving Repr, DecidableEq

/-- `EnhancedPollingEngine.adjust_concurrency`: records the batch error rate
in a five-entry sliding window.  The increase/decrease branches (lines
1130-1135) are commented out in the source, so `current_concurrent` is left
untouched. -/
def adjust_concurrency (st : ConcState)
    (success_count total_count error_count : Nat) : ConcState :=
  if total_count = 0 then st
  else
    let _success_rate : ℚ := (success_count : ℚ) / (total_count : ℚ)
    let error_rate : ℚ := (error_count : ℚ) / (total_count : ℚ)
    let re := st.recent_errors ++ [error_rate]
    let re := if 5 < re.length then re.drop 1 else re
    { st with recent_errors := re }

/-! ## The per-cycle batch loop (`run`, lines 1305-1377, with
`get_balanced_batch` and the 429 requeue of `poll_users_batch`)

Only the request accounting is modelled: which users are fetched in each
batch, how often, and the pending-retry queue.  `outcome u k` is the result
of the `k+1`-th fetch for user `u` in the cycle. -/

inductive FetchSim where
  | ok (newTweet : Bool)
  | rate429
  | err
deriving Repr, DecidableEq

def bumpAttempt : List (String × Nat) → String → List (String × Nat)
  | [], u => [(u, 1)]
  | (k, n) :: rest, u =>
    if k = u then (k, n + 1) :: rest else (k, n) :: bumpAttempt rest u

def attemptsOf : List (String × Nat) → String → Nat
  | [], _ => 0
  | (k, n) :: rest, u => if k = u then n else attemptsOf rest u

/-- Append `(user, index)` to the group for `url`, preserving the insertion
order of a Python dict. -/
def addToGroup : List (String × List (String × Nat)) → String →
    (String × Nat) → List (String × List (String × Nat))
  | [], url, x => [(url, [x])]
  | (k, xs) :: rest, url, x =>
    if k = url then (k, xs ++ [x]) :: rest else (k, xs) :: addToGroup rest url x

/-- Group `users[currentIndex:]` by their assigned instance (lines
1239-1248); users without a mapping entry are skipped. -/
def groupByInstance (mapping : List (String × String)) (users : List String)
    (startIdx : Nat) : List (String × List (String × Nat)) :=
  (users.enum.drop startIdx).foldl (fun acc p =>
    match lookupStr mapping p.2 with
    | some url => addToGroup acc url (p.2, p.1)
    | none => acc) []

/-- One pass of the round-robin `for` loop over the group-key snapshot
(lines 1255-1266): pop the head of each nonempty group until `need` users
are selected; groups that empty out are dropped. -/
def rrPass (groups : List (String × List (String × Nat))) (need : Nat) :
    List (String × Nat) × List (String × List (String × Nat)) :=
  groups.foldl (fun acc g =>
    if need ≤ acc.1.length then (acc.1, acc.2 ++ [g])
    else
      match g.2 with
      | [] => (acc.1, acc.2 ++ [g])
      | x :: xs =>
        if xs.isEmpty then (acc.1 ++ [x], acc.2)
        else (acc.1 ++ [x], acc.2 ++ [(g.1, xs)])) ([], [])

/-- The outer `while` of the round-robin selection (lines 1254-1270),
fuel-indexed by the total number of grouped users. -/
def roundRobinAux : Nat → List (String × List (String × Nat)) → Nat →
    List (String × Nat)
  | 0, _, _ => []
  | fuel + 1, groups, need =>
    if groups.isEmpty || need = 0 then []
    else
      let p := rrPass groups need
      if p.1.isEmpty then []
      else p.1 ++ roundRobinAux fuel p.2 (need - p.1.length)

/-- `EnhancedPollingEngine.get_balanced_batch` (lines 1229-1275): drain the
pending queue first, then fill the remaining slots round-robin across
instances; returns the batch, the new scan index and the drained pending
queue. -/
def getBalancedBatch (mapping : List (String × String)) (users : List String)
    (batchSize : Nat) (currentIndex : Nat) (pending : List String) :
    List String × Nat × List String :=
  let takeN := min batchSize pending.length
  let batch := pending.take takeN
  let pendingRest := pending.drop takeN
  let remaining := batchSize - batch.length
  if 0 < remaining && decide (currentIndex < users.length) then
    let groups := groupByInstance mapping users currentIndex
    let fuel := (groups.map (fun g => g.2.length)).sum + 1
    let selected := roundRobinAux fuel groups remaining
    let maxIndex := selected.foldl (fun m x => max m (x.2 + 1)) currentIndex
    (batch ++ selected.map (fun x => x.1), maxIndex, pendingRest)
  else (batch, currentIndex, pendingRest)

structure CycleState where
  idx : Nat
  pending : List String
  attempts : List (String × Nat)
deriving Repr, DecidableEq

/-- One iteration of the inner batch loop of `run` (lines 1338-1355): take a
balanced batch, issue one fetch per batch member, and requeue the
rate-limited users at the end of the pending queue (lines 1161-1177). -/
def cycleStep (mapping : List (String × String)) (users : List String)
    (batchSize : Nat) (outcome : String → Nat → FetchSim) (st : CycleState) :
    CycleState :=
  if decide (st.idx < users.length) || !st.pending.isEmpty then
    let b := getBalancedBatch mapping users batchSize st.idx st.pending
    match b with
    | (batch, idxNew, pendingRest) =>
      if batch.isEmpty then { st with idx := idxNew, pending := pendingRest }
      else
        let rateLimited := batch.filter (fun u =>
          outcome u (attemptsOf st.attempts u) == FetchSim.rate429)
        { idx := idxNew
          pending := pendingRest ++ rateLimited
          attempts := batch.foldl bumpAttempt st.attempts }
  else st

/-- `n` iterations of the batch loop from the start of a cycle. -/
def cycleRun (mapping : List (String × String)) (users : List String)
    (batchSize : Nat) (outcome : String → Nat → FetchSim) : Nat → CycleState
  | 0 => { idx := 0, pending := [], attempts := [] }
  | n + 1 => cycleStep mapping users batchSize outcome
      (cycleRun mapping users batchSize outcome n)

/-- `DEFAULT_POLLING_CONFIG["MAX_RETRIES"]` (line 60). -/
def defaultMaxRetries : Nat := 5

/-- `CONCURRENT_USERS = min(BATCH_SIZE, 10)` with the default
`BATCH_SIZE = 8` (lines 58 and 305). -/
def defaultConcurrentUsers : Nat := 8

/-! ## Token bucket (spec §4.1)

Modelled from the spec: the repository contains no token-bucket rate
limiter — the configured `REQUEST_RATE` / `BURST_CAPACITY` tunables are
loaded (lines 61-62) but never consumed by an admission gate in `src/`.
The definitions below follow §4.1 verbatim: tokens refill lazily from the
elapsed wall-clock time at `rate` per second, capped at `capacity`, and
`acquire n` returns the wait for the outstanding deficit. -/

structure TokenBucket where
  rate : ℚ
  capacity : ℚ
  tokens : ℚ
  lastRefill : ℚ
deriving Repr, DecidableEq

/-- Lazy refill from elapsed wall-clock time. -/
def TokenBucket.refill (b : TokenBucket) (now : ℚ) : TokenBucket :=
  { b with tokens := min b.capacity (b.tokens + (now - b.lastRefill) * b.rate)
           lastRefill := now }

/-- `acquire n -> waitDuration`: `0` when enough tokens are available
(consuming them), otherwise the time for the deficit to refill. -/
def TokenBucket.acquire (b : TokenBucket) (n : ℚ) (now : ℚ) :
    ℚ × TokenBucket :=
  let b := b.refill now
  if n ≤ b.tokens then (0, { b with tokens := b.tokens - n })
  else ((n - b.tokens) / b.rate, b)

/-! ## Helper lemmas -/

theorem getUserState_setUserState (st : StateMap) (uid : String)
    (u : UserState) : getUserState (setUserState st uid u) uid = u := by
  induction st with
  | nil => simp [setUserState, getUserState]
  | cons hd tl ih =>
    obtain ⟨k, v⟩ := hd
    by_cases h : k = uid
    · simp [setUserState, getUserState, h]
    · simp [setUserState, getUserState, h, ih]

theorem getUserState_updUser (st : StateMap) (uid : String)
    (f : UserState → UserState) (ne : Nat) :
    getUserState (updUser st uid f ne) uid =
      { f (getUserState st uid) with last_updated := some ne } := by
  simp [updUser, getUserState_setUserState]

/-- C1: for a newly detected post id, at most one entry is appended to the
stream; the stored last post id is advanced to the new id together with the
publish attempt; on a publish failure (`publishOk = false`) nothing is
appended but the id is still advanced; and re-processing the same content
afterwards appends nothing (the failed post is never re-attempted). -/
theorem c1_at_most_once_per_transition
    (uid : String) (doc : RssDoc) (item : RssItem) (rest : List RssItem)
    (st : StateMap) (publishOk : Bool) (now : DateTime) (ne : Nat)
    (hitems : doc.items = item :: rest)
    (hl : hasText item.link = true) (ht : hasText item.title = true)
    (hd : hasText item.description = true) (hp : hasText item.pubDate = true)
    (hnew : (getUserState st uid).last_tweet_id ≠
      some (extractTweetId (item.link.getD "")))
    (hemit : (getUserState st uid).initialized = true ∨
      dateEq (parse_date (item.pubDate.getD "") now) now = true) :
    let out := processRssContent uid (.wellFormed doc) st publishOk now ne
    out.emitted.length ≤ 1 ∧
    (getUserState out.state uid).last_tweet_id =
      some (extractTweetId (item.link.getD "")) ∧
    (publishOk = false → out.emitted = []) ∧
    (processRssContent uid (.wellFormed doc) out.state true now ne).emitted
      = [] := by
  intro out
  have hcond : (!(getUserState st uid).initialized &&
      !dateEq (parse_date (item.pubDate.getD "") now) now) = false := by
    rcases hemit with h | h <;> simp [h]
  have hout : out =
      processRssContent uid (.wellFormed doc) st publishOk now ne := rfl
  have key : ∀ st2 : StateMap,
      (getUserState st2 uid).last_tweet_id =
        some (extractTweetId (item.link.getD "")) →
      (processRssContent uid (.wellFormed doc) st2 true now ne).emitted
        = [] := by
    intro st2 h2
    simp [processRssContent, hitems, hl, ht, hd, hp, h2, ProcOut.emitted]
  cases publishOk with
  | false =>
    have hval : out = .ret false
        (updUser st uid (fun u =>
          { u with last_tweet_id := some (extractTweetId (item.link.getD ""))
                   last_check_time := some ne
                   username := some (extractUsername uid doc) }) ne) [] := by
      rw [hout]
      simp [processRssContent, hitems, hl, ht, hd, hp, hnew, hcond]
    refine ⟨?_, ?_, ?_, ?_⟩
    · rw [hval]; simp [ProcOut.emitted]
    · rw [hval]; simp [ProcOut.state, getUserState_updUser]
    · intro _; rw [hval]; rfl
    · refine key _ ?_
      rw [hval]
      simp [ProcOut.state, getUserState_updUser]
  | true =>
    have hval : out = .ret true
        (updUser st uid (fun u =>
          { u with last_tweet_id := some (extractTweetId (item.link.getD ""))
                   last_success_time := some ne
                   last_check_time := some ne
                   initialized := true
                   username := some (extractUsername uid doc) }) ne)
        [{ id := extractTweetId (item.link.getD ""), user_id := uid
           username := extractUsername uid doc
           content := item.title.getD "", html := item.description.getD ""
           published_at := item.pubDate.getD "", url := item.link.getD ""
           timestamp := parse_date (item.pubDate.getD "") now
           images := dedupImages (itemImages item) }] := by
      rw [hout]
      simp [processRssContent, hitems, hl, ht, hd, hp, hnew, hcond]
    refine ⟨?_, ?_, ?_, ?_⟩
    · rw [hval]; simp [ProcOut.emitted]
    · rw [hval]; simp [ProcOut.state, getUserState_updUser]
    · intro h; cases h
    · refine key _ ?_
      rw [hval]
      simp [ProcOut.state, getUserState_updUser]

/-- A concrete clock for witnesses: 2024-01-01 12:00:00. -/
def nowW : DateTime := ⟨2024, 1, 1, 12, 0, 0, none⟩

/-- A concrete feed item published on the witness clock's calendar day. -/
def itemW : RssItem :=
  { link := some "http://h/alice/status/7"
    title := some "hi"
    description := some "<p>x</p>"
    pubDate := some "Mon, 01 Jan 2024 10:00:00 GMT" }

def docW : RssDoc := { items := [itemW] }

theorem c1_witness :
    (processRssContent "alice" (.wellFormed docW) [] false nowW 55).emitted.length
      ≤ 1 ∧
    (getUserState
        (processRssContent "alice" (.wellFormed docW) [] false nowW 55).state
        "alice").last_tweet_id = some (extractTweetId (itemW.link.getD "")) ∧
    (processRssContent "alice" (.wellFormed docW) [] false nowW 55).emitted
      = [] ∧
    (processRssContent "alice" (.wellFormed docW)
        (processRssContent "alice" (.wellFormed docW) [] false nowW 55).state
        true nowW 55).emitted = [] := by
  have h := c1_at_most_once_per_transition "alice" docW itemW [] [] false nowW
    55 rfl (by decide) (by decide) (by decide) (by decide) (by decide)
    (Or.inr (by decide))
  exact ⟨h.1, h.2.1, h.2.2.1 rfl, h.2.2.2⟩

/-! ## Claim C4: first-run suppression -/

/-- A permalink with a fragment suffix, as Nitter emits them. -/
def itemW8 : RssItem :=
  { link := some "http://h/alice/status/123#m"
    title := some "hi"
    description := some "<p>x</p>"
    pubDate := some "Mon, 01 Jan 2024 10:00:00 GMT" }

def docW8 : RssDoc := { items := [itemW8] }

/-- An account whose stored id is the fragment-stripped trailing segment. -/
def stW8 : StateMap :=
  [("alice", { last_tweet_id := some "123", initialized := true })]

/-- C8 counterexample: the engine does not strip the fragment suffix before
comparison.  The trailing segment of the permalink is `123#m`, the
spec-worded (stripped) id is `123`; with `123` stored — equal to the
stripped id, so under the claim the post is not new — the engine still
emits the post, because it compares the unstripped `123#m`. -/
theorem c8_counterexample :
    extractTweetId "http://h/alice/status/123#m" = "123#m" ∧
    specPostId "http://h/alice/status/123#m" = "123" ∧
    (getUserState stW8 "alice").last_tweet_id = some "123" ∧
    (processRssContent "alice" (.wellFormed docW8) stW8 true nowW 55).emitted.length
      = 1 := by
  decide

/-- C8 amended: the post id used for novelty comparison is the trailing path
segment of the permalink with the fragment suffix kept (not stripped): every
emitted entry carries exactly that segment as its id, and a stored id equal
to that unstripped segment suppresses emission. -/
theorem c8_trailing_segment_unstripped
    (uid : String) (doc : RssDoc) (item : RssItem) (rest : List RssItem)
    (st : StateMap) (publishOk : Bool) (now : DateTime) (ne : Nat)
    (hitems : doc.items = item :: rest) :
    (∀ t ∈ (processRssContent uid (.wellFormed doc) st publishOk now ne).emitted,
      t.id = extractTweetId (item.link.getD "")) ∧
    ((getUserState st uid).last_tweet_id =
        some (extractTweetId (item.link.getD "")) →
      (processRssContent uid (.wellFormed doc) st publishOk now ne).emitted
        = [] ∧
      (processRssContent uid (.wellFormed doc) st publishOk now ne).value
        = false) := by
  cases hl : hasText item.link with
  | false =>
    simp [processRssContent, hitems, hl, ProcOut.emitted, ProcOut.value]
  | true =>
  cases ht : hasText item.title with
  | false =>
    simp [processRssContent, hitems, hl, ht, ProcOut.emitted, ProcOut.value]
  | true =>
  cases hd : hasText item.description with
  | false =>
    simp [processRssContent, hitems, hl, ht, hd, ProcOut.emitted,
      ProcOut.value]
  | true =>
  cases hp : hasText item.pubDate with
  | false =>
    simp [processRssContent, hitems, hl, ht, hd, hp, ProcOut.emitted,
      ProcOut.value]
  | true =>
  by_cases heq : (getUserState st uid).last_tweet_id =
      some (extractTweetId (item.link.getD ""))
  · simp [processRssContent, hitems, hl, ht, hd, hp, heq, ProcOut.emitted,
      ProcOut.value]
  · refine ⟨?_, fun h => absurd h heq⟩
    cases hc : (!(getUserState st uid).initialized &&
        !dateEq (parse_date (item.pubDate.getD "") now) now) with
    | true =>
      simp [processRssContent, hitems, hl, ht, hd, hp, heq, hc,
        ProcOut.emitted]
    | false =>
      cases publishOk with
      | false =>
        simp [processRssContent, hitems, hl, ht, hd, hp, heq, hc,
          ProcOut.emitted]
      | true =>
        intro t htm
        simp [processRssContent, hitems, hl, ht, hd, hp, heq, hc,
          ProcOut.emitted] at htm
        rw [htm]

/-- An account whose stored id is the full unstripped trailing segment. -/
def stW8b : StateMap :=
  [("alice", { last_tweet_id := some "123#m", initialized := true })]

theorem c8_witness :
    (processRssContent "alice" (.wellFormed docW8) stW8b true nowW 55).emitted
      = [] ∧
    (processRssContent "alice" (.wellFormed docW8) stW8b true nowW 55).value
      = false :=
  (c8_trailing_segment_unstripped "alice" docW8 itemW8 [] stW8b true nowW 55
    rfl).2 (by decide)

/-! ## Claim C5: every terminal parse outcome still stamps the account -/

/-- Every branch of `process_rss_content` either leaves the state map
untouched or stamps the account with the current check time. -/
theorem processRssContent_state_or (uid : String) (content : RssContent)
    (st : StateMap) (publishOk : Bool) (now : DateTime) (ne : Nat) :
    (processRssContent uid content st publishOk now ne).state = st ∨
    (getUserState (processRssContent uid content st publishOk now ne).state
      uid).last_check_time = some ne := by
  cases content with
  | malformed => exact Or.inl rfl
  | wellFormed doc =>
    cases hitems : doc.items with
    | nil => exact Or.inl (by simp [processRssContent, hitems, ProcOut.state])
    | cons item rest =>
      cases hl : hasText item.link with
      | false =>
        exact Or.inl (by simp [processRssContent, hitems, hl, ProcOut.state])
      | true =>
      cases ht : hasText item.title with
      | false =>
        exact Or.inl
          (by simp [processRssContent, hitems, hl, ht, ProcOut.state])
      | true =>
      cases hd : hasText item.description with
      | false =>
        exact Or.inl
          (by simp [processRssContent, hitems, hl, ht, hd, ProcOut.state])
      | true =>
      cases hp : hasText item.pubDate with
      | false =>
        exact Or.inl
          (by simp [processRssContent, hitems, hl, ht, hd, hp, ProcOut.state])
      | true =>
      refine Or.inr ?_
      by_cases heq : (getUserState st uid).last_tweet_id =
          some (extractTweetId (item.link.getD ""))
      · simp [processRssContent, hitems, hl, ht, hd, hp, heq, ProcOut.state,
          getUserState_updUser]
      · cases hc : (!(getUserState st uid).initialized &&
            !dateEq (parse_date (item.pubDate.getD "") now) now) with
        | true =>
          simp [processRssContent, hitems, hl, ht, hd, hp, heq, hc,
            ProcOut.state, getUserState_updUser]
        | false =>
          cases publishOk with
          | false =>
            simp [processRssContent, hitems, hl, ht, hd, hp, heq, hc,
              ProcOut.state, getUserState_updUser]
          | true =>
            simp [processRssContent, hitems, hl, ht, hd, hp, heq, hc,
              ProcOut.state, getUserState_updUser]

/-- C5: when a fetched payload is handed to the feed parser (200 response
whose content hash differs from the stored one), every terminal outcome —
no items, missing required fields, a malformed payload, or a new post — ends
with the account's `last_check_time` stamped at the current time, so a bad
payload cannot cause unboundedly fast retries.  (For a malformed payload the
stamp comes from the generic handler of `fetch_user_rss`, which also counts
a network error, because the parse-error handler dies on its unbound
`user_state` read; the other outcomes stamp it in `process_rss_content` or
inherit the stamp written together with the new content hash.) -/
theorem c5_terminal_outcomes_stamp_state (md5 : String → String)
    (uid body : String) (parsed : RssContent) (st : StateMap)
    (publishOk : Bool) (now : DateTime) (ne : Nat)
    (hchanged : (getUserState st uid).content_hash ≠ some (md5 body)) :
    (getUserState
      (fetchUserRss md5 uid (.ok body parsed) st publishOk now ne).state
      uid).last_check_time = some ne := by
  have hst1 := processRssContent_state_or uid parsed
    (updUser st uid (fun u =>
      { u with content_hash := some (md5 body)
               last_check_time := some ne }) ne) publishOk now ne
  simp only [fetchUserRss]
  rw [if_neg hchanged]
  cases hpr : processRssContent uid parsed
      (updUser st uid (fun u =>
        { u with content_hash := some (md5 body)
                 last_check_time := some ne }) ne) publishOk now ne with
  | ret b st2 em =>
    rw [hpr] at hst1
    simp only [ProcOut.state] at hst1
    simp only [FetchOut.state]
    rcases hst1 with h | h
    · rw [h, getUserState_updUser]
    · exact h
  | raised st2 em =>
    simp only [FetchOut.state]
    rw [getUserState_updUser]

theorem c5_witness :
    (getUserState
      (fetchUserRss (fun _ => "h1") "alice" (.ok "nonsense" .malformed) []
        true nowW 55).state "alice").last_check_time = some 55 :=
  c5_terminal_outcomes_stamp_state (fun _ => "h1") "alice" "nonsense"
    .malformed [] true nowW 55 (by decide)

/-! ## Claim C9: media URL deduplication ignores query strings -/

theorem memStr_iff (l : List String) (s : String) :
    memStr l s = true ↔ s ∈ l := by
  induction l with
  | nil => simp [memStr]
  | cons x xs ih =>
    by_cases h : x = s
    · simp [memStr, h]
    · constructor
      · intro hm
        exact List.mem_cons_of_mem _ (ih.mp (by simpa [memStr, h] using hm))
      · intro hm
        rcases List.mem_cons.mp hm with h2 | h2
        · exact absurd h2.symm h
        · simpa [memStr, h] using ih.mpr h2

/-- Once a normalized form is in `seen`, no kept URL maps to it. -/
theorem countP_dedupAux_zero (images : List String) (seen : List String)
    (n : String) (hmem : n ∈ seen) :
    List.countP (fun w => normalize_image_url w == n)
      (dedupImagesAux seen images) = 0 := by
  induction images generalizing seen with
  | nil => rfl
  | cons u rest ih =>
    cases hv : validImage u with
    | false => simpa [dedupImagesAux, hv] using ih seen hmem
    | true =>
      cases hc : memStr seen (normalize_image_url (fixPort u)) with
      | true => simpa [dedupImagesAux, hv, hc] using ih seen hmem
      | false =>
        have hnotin : normalize_image_url (fixPort u) ∉ seen := by
          intro h
          rw [← memStr_iff seen, hc] at h
          cases h
        have hne : normalize_image_url (fixPort u) ≠ n :=
          fun h => hnotin (h ▸ hmem)
        simp only [dedupImagesAux, hv, hc, Bool.not_true, Bool.false_eq_true,
          if_false]
        rw [List.countP_cons]
        simp [hne, ih (normalize_image_url (fixPort u) :: seen)
          (List.mem_cons_of_mem _ hmem)]

/-- If some valid URL with normalized form `n` is in the input and `n` is
not yet seen, exactly one kept URL maps to `n`. -/
theorem countP_dedupAux_one (images : List String) (seen : List String)
    (n : String) (hnot : n ∉ seen)
    (hx : ∃ u, u ∈ images ∧ validImage u = true ∧
      normalize_image_url (fixPort u) = n) :
    List.countP (fun w => normalize_image_url w == n)
      (dedupImagesAux seen images) = 1 := by
  revert hnot hx
  induction images generalizing seen with
  | nil =>
    intro _ hx
    rcases hx with ⟨u, hu, _, _⟩
    cases hu
  | cons u rest ih =>
    intro hnot hx
    cases hv : validImage u with
    | false =>
      have hx2 : ∃ w, w ∈ rest ∧ validImage w = true ∧
          normalize_image_url (fixPort w) = n := by
        rcases hx with ⟨w, hw, hwv, hwn⟩
        rcases List.mem_cons.mp hw with h | h
        · subst h; rw [hv] at hwv; cases hwv
        · exact ⟨w, h, hwv, hwn⟩
      simpa [dedupImagesAux, hv] using ih seen hnot hx2
    | true =>
      cases hc : memStr seen (normalize_image_url (fixPort u)) with
      | true =>
        have hin : normalize_image_url (fixPort u) ∈ seen :=
          (memStr_iff seen _).mp hc
        have hx2 : ∃ w, w ∈ rest ∧ validImage w = true ∧
            normalize_image_url (fixPort w) = n := by
          rcases hx with ⟨w, hw, hwv, hwn⟩
          rcases List.mem_cons.mp hw with h | h
          · subst h; exact absurd (hwn ▸ hin) hnot
          · exact ⟨w, h, hwv, hwn⟩
        simpa [dedupImagesAux, hv, hc] using ih seen hnot hx2
      | false =>
        by_cases he : normalize_image_url (fixPort u) = n
        · simp only [dedupImagesAux, hv, hc, Bool.not_true,
            Bool.false_eq_true, if_false]
          rw [List.countP_cons]
          rw [countP_dedupAux_zero rest
            (normalize_image_url (fixPort u) :: seen) n
            (he ▸ List.mem_cons_self _ _)]
          simp [he]
        · have hx2 : ∃ w, w ∈ rest ∧ validImage w = true ∧
              normalize_image_url (fixPort w) = n := by
            rcases hx with ⟨w, hw, hwv, hwn⟩
            rcases List.mem_cons.mp hw with h | h
            · subst h; exact absurd hwn he
            · exact ⟨w, h, hwv, hwn⟩
          have hnot2 : n ∉ normalize_image_url (fixPort u) :: seen := by
            intro h
            rcases List.mem_cons.mp h with h | h
            · exact he h.symm
            · exact hnot h
          simp only [dedupImagesAux, hv, hc, Bool.not_true,
            Bool.false_eq_true, if_false]
          rw [List.countP_cons]
          simp [he, ih (normalize_image_url (fixPort u) :: seen) hnot2 hx2]

/-- C9: when the same image appears both as an attachment (`enclosure`) and
as an inline `img` reference whose URL differs only by its query string
(equal `normalize_image_url` forms), both URLs enter the raw image list but
the emitted post carries exactly one media entry for that image. -/
theorem c9_media_dedup_ignores_query
    (uid : String) (doc : RssDoc) (item : RssItem) (rest : List RssItem)
    (st : StateMap) (publishOk : Bool) (now : DateTime) (ne : Nat)
    (hitems : doc.items = item :: rest)
    (hddesc : hasText item.description = true)
    (ty u : String)
    (henc : (ty, u) ∈ item.enclosures)
    (hty : strStarts ty "image/" = true) (hune : u ≠ "")
    (hvalid : validImage u = true) (hfix : fixPort u = u)
    (v : String) (hdesc : v ∈ findImgs (item.description.getD ""))
    (_hvvalid : validImage v = true)
    (_hsame : normalize_image_url v = normalize_image_url u) :
    u ∈ itemImages item ∧ v ∈ itemImages item ∧
    ∀ t ∈ (processRssContent uid (.wellFormed doc) st publishOk now ne).emitted,
      List.countP (fun w => normalize_image_url w == normalize_image_url u)
        t.images = 1 := by
  obtain ⟨d, hdsome, hdne⟩ : ∃ d, item.description = some d ∧ d ≠ "" := by
    cases hds : item.description with
    | none => rw [hds] at hddesc; cases hddesc
    | some d =>
      refine ⟨d, rfl, ?_⟩
      rw [hds] at hddesc
      simpa [hasText] using hddesc
  have humem : u ∈ itemImages item := by
    apply List.mem_append_left
    apply List.mem_append_left
    exact List.mem_filterMap.mpr ⟨(ty, u), henc, by simp [hty, hune]⟩
  have hvmem : v ∈ itemImages item := by
    apply List.mem_append_left
    apply List.mem_append_right
    rw [hdsome] at hdesc ⊢
    simpa [hdne] using hdesc
  refine ⟨humem, hvmem, ?_⟩
  have hcount : List.countP
      (fun w => normalize_image_url w == normalize_image_url u)
      (dedupImages (itemImages item)) = 1 := by
    apply countP_dedupAux_one _ [] _ (List.not_mem_nil _)
    exact ⟨u, humem, hvalid, by rw [hfix]⟩
  cases hl : hasText item.link with
  | false => simp [processRssContent, hitems, hl, ProcOut.emitted]
  | true =>
  cases ht : hasText item.title with
  | false => simp [processRssContent, hitems, hl, ht, ProcOut.emitted]
  | true =>
  cases hp : hasText item.pubDate with
  | false =>
    simp [processRssContent, hitems, hl, ht, hddesc, hp, ProcOut.emitted]
  | true =>
  by_cases heq : (getUserState st uid).last_tweet_id =
      some (extractTweetId (item.link.getD ""))
  · simp [processRssContent, hitems, hl, ht, hddesc, hp, heq, ProcOut.emitted]
  · cases hc : (!(getUserState st uid).initialized &&
        !dateEq (parse_date (item.pubDate.getD "") now) now) with
    | true =>
      simp [processRssContent, hitems, hl, ht, hddesc, hp, heq, hc,
        ProcOut.emitted]
    | false =>
      cases publishOk with
      | false =>
        simp [processRssContent, hitems, hl, ht, hddesc, hp, heq, hc,
          ProcOut.emitted]
      | true =>
        intro t htm
        simp [processRssContent, hitems, hl, ht, hddesc, hp, heq, hc,
          ProcOut.emitted] at htm
        rw [htm]
        exact hcount

/-- Witness item: the same image as an attachment and inline with a
different query string. -/
def itemW9 : RssItem :=
  { link := some "http://h/alice/status/7"
    title := some "hi"
    description := some "<img src=\"http://h/pic/media/a.jpg?name=large\">"
    pubDate := some "Mon, 01 Jan 2024 10:00:00 GMT"
    enclosures := [("image/jpeg", "http://h/pic/media/a.jpg?name=small")] }

def docW9 : RssDoc := { items := [itemW9] }

/-- A placeholder tweet for total list indexing in the witness. -/
def dummyTweet : TweetData :=
  { id := "", user_id := "", username := "", content := "", html := ""
    published_at := "", url := "", timestamp := nowW, images := [] }

theorem c9_witness :
    "http://h/pic/media/a.jpg?name=small" ∈ itemImages itemW9 ∧
    "http://h/pic/media/a.jpg?name=large" ∈ itemImages itemW9 ∧
    List.countP
      (fun w => normalize_image_url w ==
        normalize_image_url "http://h/pic/media/a.jpg?name=small")
      (((processRssContent "alice" (.wellFormed docW9) [] true nowW 55).emitted.headD
        dummyTweet).images) = 1 := by
  have h := c9_media_dedup_ignores_query "alice" docW9 itemW9 [] [] true nowW
    55 rfl (by decide) "image/jpeg" "http://h/pic/media/a.jpg?name=small"
    (by decide) (by decide) (by decide) (by decide) (by decide)
    "http://h/pic/media/a.jpg?name=large" (by decide) (by decide) (by decide)
  exact ⟨h.1, h.2.1, h.2.2 _ (by decide)⟩

/-! ## Claim C3: health-based reassignment on lookup -/

/-- A backend with a large recent rate-limit count (over any threshold) and
some assigned load. -/
def instBad : NitterInstance :=
  { url := "http://bad", assigned_users := 3, recent_429_count := 1000 }

/-- A healthy, completely unloaded backend. -/
def instGood : NitterInstance := { url := "http://good" }

/-- An account stickily assigned to the rate-limited backend. -/
def assignW : AssignState :=
  { instances := [instBad, instGood], mapping := [("alice", "http://bad")] }

/-- C3 counterexample: `get_instance_for_user` has no health check at all.
With the sticky backend at 1000 recent 429s and a healthy, least-loaded
alternative available, the lookup still returns the rate-limited backend and
leaves the whole assignment state (mapping and both load counters)
untouched — no reassignment, no counter updates. -/
theorem c3_counterexample :
    (get_instance_for_user assignW "alice").1 = some instBad ∧
    (get_instance_for_user assignW "alice").2 = assignW ∧
    instBad.recent_429_count = 1000 ∧
    instGood.recent_429_count = 0 ∧
    instGood.assigned_users < instBad.assigned_users := by
  decide

/-- C3 amended: a lookup for an account with a sticky assignment always
returns that assignment and leaves the state unchanged, regardless of the
assigned backend's recent rate-limit count (no health-based migration and no
load-counter updates on lookup; health enters only through the hourly 429
reset of `update_instance_stats`). -/
theorem c3_sticky_lookup_ignores_health (st : AssignState) (uid url : String)
    (h : lookupStr st.mapping uid = some url) :
    get_instance_for_user st uid = (findInstance st.instances url, st) := by
  simp [get_instance_for_user, h]

theorem c3_witness :
    get_instance_for_user assignW "alice" =
      (findInstance assignW.instances "http://bad", assignW) :=
  c3_sticky_lookup_ignores_health assignW "alice" "http://bad" (by decide)

/-! ## Claim C6: adaptive concurrency from the error-rate window -/

/-- A concurrency state after four fully failed batches, above the minimum. -/
def concW : ConcState := { current_concurrent := 5, recent_errors := [1, 1, 1, 1] }

/-- C6 counterexample: the increase/decrease logic of `adjust_concurrency`
is commented out.  After a batch with a 100% error rate (10 errors out of
10), with the limit at 5 and the configured minimum at 1 — so a decrease is
possible — the limit still stays at 5. -/
theorem c6_counterexample :
    (adjust_concurrency concW 0 10 10).current_concurrent = 5 ∧
    concW.current_concurrent = 5 ∧
    concW.min_concurrent = 1 ∧
    (10 : ℚ) / 10 = 1 := by
  refine ⟨?_, rfl, rfl, by norm_num⟩
  rfl

/-- C6 amended: after each batch the engine records the batch error rate in
a sliding window of the last five batches, but never changes the concurrency
limit — the adjustment branches are absent, so the limit is independent of
the observed error rates. -/
theorem c6_window_only_no_adjustment (st : ConcState)
    (s t e : Nat) (hw : st.recent_errors.length ≤ 5) :
    (adjust_concurrency st s t e).current_concurrent =
      st.current_concurrent ∧
    (adjust_concurrency st s t e).recent_errors.length ≤ 5 ∧
    (adjust_concurrency st s t e).min_concurrent = st.min_concurrent ∧
    (adjust_concurrency st s t e).max_concurrent = st.max_concurrent := by
  by_cases ht : t = 0
  · simp [adjust_concurrency, ht, hw]
  · refine ⟨by simp [adjust_concurrency, ht], ?_, by simp [adjust_concurrency, ht],
      by simp [adjust_concurrency, ht]⟩
    simp only [adjust_concurrency, ht, if_false, if_neg]
    by_cases h5 : 5 < (st.recent_errors ++ [(e : ℚ) / (t : ℚ)]).length
    · simp only [h5, if_true]
      simp only [List.length_drop, List.length_append, List.length_cons,
        List.length_nil] at h5 ⊢
      omega
    · simp only [h5, if_false]
      simp only [List.length_append, List.length_cons, List.length_nil] at h5 ⊢
      omega

theorem c6_witness :
    (adjust_concurrency concW 0 10 10).current_concurrent =
      concW.current_concurrent ∧
    (adjust_concurrency concW 0 10 10).recent_errors.length ≤ 5 ∧
    (adjust_concurrency concW 0 10 10).min_concurrent = concW.min_concurrent ∧
    (adjust_concurrency concW 0 10 10).max_concurrent = concW.max_concurrent :=
  c6_window_only_no_adjustment concW 0 10 10 (by decide)

/-! ## Claim C2: requests per account per cycle versus `MAX_RETRIES` -/

/-- C2 counterexample: the batch loop of a cycle has no per-account attempt
cap.  A single account whose fetches always return 429 is requeued by every
batch; after six batch iterations of the same still-running cycle (the
pending queue is nonempty, so the loop guard still holds) it has been
fetched six times, exceeding the default `MAX_RETRIES` of five. -/
theorem c2_counterexample :
    attemptsOf (cycleRun [("a2", "i1")] ["a2"] defaultConcurrentUsers
      (fun _ _ => FetchSim.rate429) 6).attempts "a2" = 6 ∧
    defaultMaxRetries < 6 ∧
    (cycleRun [("a2", "i1")] ["a2"] defaultConcurrentUsers
      (fun _ _ => FetchSim.rate429) 6).pending ≠ [] := by
  decide

/-- With the single user `a2` always rate-limited, each batch refetches it
and requeues it. -/
theorem cycleStep_always429 (k : Nat) :
    cycleStep [("a2", "i1")] ["a2"] defaultConcurrentUsers
      (fun _ _ => FetchSim.rate429)
      { idx := 1, pending := ["a2"], attempts := [("a2", k)] } =
      { idx := 1, pending := ["a2"], attempts := [("a2", k + 1)] } := by
  rfl

/-- C2 amended: a rate-limited account is requeued and retried within the
same cycle, but with no bound at all: `MAX_RETRIES` is never consulted by
the fetch path, so while the 429s persist the account is fetched once per
batch iteration indefinitely — after `n + 1` iterations it has made `n + 1`
requests and is still pending, for every `n`. -/
theorem c2_requeue_unbounded (n : Nat) :
    cycleRun [("a2", "i1")] ["a2"] defaultConcurrentUsers
      (fun _ _ => FetchSim.rate429) (n + 1) =
      { idx := 1, pending := ["a2"], attempts := [("a2", n + 1)] } := by
  induction n with
  | zero => rfl
  | succ m ih =>
    show cycleStep [("a2", "i1")] ["a2"] defaultConcurrentUsers
      (fun _ _ => FetchSim.rate429)
      (cycleRun [("a2", "i1")] ["a2"] defaultConcurrentUsers
        (fun _ _ => FetchSim.rate429) (m + 1)) = _
    rw [ih]
    exact cycleStep_always429 (m + 1)

/-! ## Claim C7: the shared token-bucket rate limiter (spec §4.1) -/

/-- C7: lazy continuous refill — the refill is computed from the elapsed
wall-clock time on each call, is capped at `capacity`, stamps the refill
time, and adds nothing when no time has passed; and with `rate = 10`,
`capacity = 20` and all tokens exhausted, `acquire 1` returns a wait of
exactly `1/rate = 1/10` — neither zero nor the `capacity/rate = 2` needed to
refill everything. -/
theorem c7_token_bucket (b : TokenBucket) (now : ℚ)
    (hcap : b.tokens ≤ b.capacity) (_hrate : 0 < b.rate) :
    (b.refill now).tokens ≤ b.capacity ∧
    (b.refill now).lastRefill = now ∧
    (b.refill b.lastRefill).tokens = b.tokens ∧
    (b.rate = 10 → b.capacity = 20 → b.tokens = 0 → now = b.lastRefill →
      (b.acquire 1 now).1 = 1 / 10 ∧
      (b.acquire 1 now).1 ≠ 0 ∧
      (b.acquire 1 now).1 < b.capacity / b.rate) := by
  refine ⟨min_le_left _ _, rfl, ?_, ?_⟩
  · show min b.capacity (b.tokens + (b.lastRefill - b.lastRefill) * b.rate)
      = b.tokens
    rw [sub_self, zero_mul, add_zero]
    exact min_eq_right hcap
  · intro hr hc h0 hnow
    have hval : (b.acquire 1 now).1 = 1 / 10 := by
      show (if (1 : ℚ) ≤ (b.refill now).tokens then
        ((0 : ℚ), _) else ((1 - (b.refill now).tokens) / (b.refill now).rate,
          b.refill now)).1 = 1 / 10
      have htok : (b.refill now).tokens = 0 := by
        show min b.capacity (b.tokens + (now - b.lastRefill) * b.rate) = 0
        rw [hnow, sub_self, zero_mul, add_zero, h0]
        rw [hc]; norm_num
      rw [htok]
      have hrr : (b.refill now).rate = b.rate := rfl
      norm_num [hrr, hr]
    refine ⟨hval, by rw [hval]; norm_num, by rw [hval, hc, hr]; norm_num⟩

/-- A bucket at rate 10, capacity 20, fully drained. -/
def bucketW : TokenBucket := { rate := 10, capacity := 20, tokens := 0, lastRefill := 3 }

theorem c7_witness :
    (bucketW.refill 3).tokens ≤ bucketW.capacity ∧
    (bucketW.refill 3).lastRefill = 3 ∧
    (bucketW.refill bucketW.lastRefill).tokens = bucketW.tokens ∧
    (bucketW.acquire 1 3).1 = 1 / 10 ∧
    (bucketW.acquire 1 3).1 ≠ 0 ∧
    (bucketW.acquire 1 3).1 < bucketW.capacity / bucketW.rate := by
  have h := c7_token_bucket bucketW 3 (by norm_num [bucketW])
    (by norm_num [bucketW])
  have h4 := h.2.2.2 (by norm_num [bucketW]) (by norm_num [bucketW])
    (by norm_num [bucketW]) (by norm_num [bucketW])
  exact ⟨h.1, h.2.1, h.2.2.1, h4.1, h4.2.1, h4.2.2⟩

end Nitter
